import Mathlib

/-!
Shallow embedding of the ac073tc1 e-paper driver and image pipeline.

Sources embedded:
- src/main.rs: anchor palettes, `lerp`, `get_palette`
- src/quantize/mod.rs: the remapping step of `quantize`
- src/epd/mod.rs: `read_eeprom` record decoding (the `transmute` layout)
- src/epd/inky.rs: `show` packing, `set_pixel`, `busy_wait`, `spi_write`
  chunking, and the `setup`/`update` bus-operation sequences

Machine integers are modelled as `Nat` with explicit masking where the code
masks.  The saturation factor is `f64` in the source; it is modelled as `ℚ`.
Every concrete `f64` computation referred to by a theorem below is exact
dyadic arithmetic on small values (well within 53 bits of mantissa), where
IEEE-754 double evaluation agrees with the rational result, so the `ℚ`
model is faithful at those points.  The Rust `as u8` cast from `f64`
truncates toward zero and saturates to `[0, 255]`; `rustAsU8` models that.
-/

/-- RGBA color with one byte per channel, mirroring `imagequant::RGBA`
(equality is derived componentwise exact equality, as in the Rust crate). -/
structure RGBA where
  r : Nat
  g : Nat
  b : Nat
  a : Nat
deriving DecidableEq, Repr

/-- Rust `as u8` applied to a (nonnegative-or-negative) real intermediate:
truncation toward zero with saturation to `[0, 255]`.  For arguments
`q ≥ 0` truncation toward zero is `Rat.floor`. -/
def rustAsU8 (q : ℚ) : Nat :=
  if q < 0 then 0 else min 255 ⌊q⌋.toNat

/-- Embedding of `fn lerp(x: u8, y: u8, i: f64) -> u8` from src/main.rs:
`(x as f64 * (1.0 - i) + y as f64 * i) as u8`. -/
def lerp (x y : Nat) (i : ℚ) : Nat :=
  rustAsU8 ((x : ℚ) * (1 - i) + (y : ℚ) * i)

/-- The `DESATURATED_PALETTE` constant table from src/main.rs. -/
def DESATURATED_PALETTE : List RGBA :=
  [⟨0, 0, 0, 255⟩,       -- Black
   ⟨255, 255, 255, 255⟩, -- White
   ⟨0, 255, 0, 255⟩,     -- Green
   ⟨0, 0, 255, 255⟩,     -- Blue
   ⟨255, 0, 0, 255⟩,     -- Red
   ⟨255, 255, 0, 255⟩,   -- Yellow
   ⟨255, 140, 0, 255⟩,   -- Orange
   ⟨0, 0, 0, 0⟩]         -- Transparent

/-- The `SATURATED_PALETTE` constant table from src/main.rs. -/
def SATURATED_PALETTE : List RGBA :=
  [⟨0x32, 0x25, 0x36, 0xFF⟩, -- Black
   ⟨0xC1, 0xC6, 0xC0, 0xFF⟩, -- White
   ⟨0x33, 0x5D, 0x56, 0xFF⟩, -- Green
   ⟨0x3F, 0x39, 0x64, 0xFF⟩, -- Blue
   ⟨0x9F, 0x51, 0x44, 0xFF⟩, -- Red
   ⟨0xB0, 0xA4, 0x4E, 0xFF⟩, -- Yellow
   ⟨0xA0, 0x72, 0x4C, 0xFF⟩, -- Orange
   ⟨0x00, 0x00, 0x00, 0x00⟩] -- Transparent

/-- Embedding of `fn get_palette(saturation: f64)` from src/main.rs:
zip the two anchor tables and lerp each channel independently. -/
def get_palette (saturation : ℚ) : List RGBA :=
  (DESATURATED_PALETTE.zip SATURATED_PALETTE).map (fun p =>
    { r := lerp p.1.r p.2.r saturation
      g := lerp p.1.g p.2.g saturation
      b := lerp p.1.b p.2.b saturation
      a := lerp p.1.a p.2.a saturation })

/-- Modelled from the spec: the palette builder as the spec words it, with
round-to-nearest (`round(desaturated·(1−s) + saturated·s)` per channel)
instead of the truncating cast the source performs. -/
def get_palette_rounded (saturation : ℚ) : List RGBA :=
  (DESATURATED_PALETTE.zip SATURATED_PALETTE).map (fun p =>
    { r := (round ((p.1.r : ℚ) * (1 - saturation) + (p.2.r : ℚ) * saturation)).toNat
      g := (round ((p.1.g : ℚ) * (1 - saturation) + (p.2.g : ℚ) * saturation)).toNat
      b := (round ((p.1.b : ℚ) * (1 - saturation) + (p.2.b : ℚ) * saturation)).toNat
      a := (round ((p.1.a : ℚ) * (1 - saturation) + (p.2.a : ℚ) * saturation)).toNat })

theorem lerp_at_zero (x y : Nat) : lerp x y 0 = min 255 x := by
  unfold lerp rustAsU8
  have h0 : ((x : ℚ) * (1 - 0) + (y : ℚ) * 0) = (x : ℚ) := by ring
  rw [h0, if_neg (not_lt.mpr (Nat.cast_nonneg x)), Int.floor_natCast]
  simp

theorem lerp_at_one (x y : Nat) : lerp x y 1 = min 255 y := by
  unfold lerp rustAsU8
  have h0 : ((x : ℚ) * (1 - 1) + (y : ℚ) * 1) = (y : ℚ) := by ring
  rw [h0, if_neg (not_lt.mpr (Nat.cast_nonneg y)), Int.floor_natCast]
  simp

/-- C5: the palette builder output at saturation 0 equals the desaturated
anchor table exactly, and at saturation 1 equals the saturated anchor table
exactly, channel by channel.  At these two saturation values every f64
intermediate in the source (`x·1.0 + y·0.0` resp. `x·0.0 + y·1.0` on
integers below 256) is exact, so the rational model coincides with the
compiled behavior. -/
theorem get_palette_at_endpoints :
    get_palette 0 = DESATURATED_PALETTE ∧ get_palette 1 = SATURATED_PALETTE := by
  constructor <;>
    simp [get_palette, DESATURATED_PALETTE, SATURATED_PALETTE, lerp_at_zero, lerp_at_one]

/-- C4 counterexample: at saturation 1/4, the Green entry (index 2) has red
channel `(0·(3/4) + 51·(1/4)) as u8 = 12` in the code (truncation toward
zero of 12.75), while round-to-nearest gives 13, so the builder does not
round to nearest.  The f64 computation at this point is exact dyadic
arithmetic (51 · 0.25 = 12.75 exactly), so the rational model is faithful. -/
theorem get_palette_not_rounded :
    get_palette (1/4) ≠ get_palette_rounded (1/4) ∧
    ((get_palette (1/4)).getD 2 ⟨0, 0, 0, 0⟩).r = 12 ∧
    ((get_palette_rounded (1/4)).getD 2 ⟨0, 0, 0, 0⟩).r = 13 := by
  refine ⟨?_, ?_, ?_⟩
  · intro h
    have hr := congrArg (fun l => (List.getD l 2 ⟨0, 0, 0, 0⟩).r) h
    simp only [get_palette, get_palette_rounded, DESATURATED_PALETTE,
      SATURATED_PALETTE, List.zip, List.zipWith, List.map, List.getD,
      List.getElem?_cons_succ, List.getElem?_cons_zero, Option.getD_some] at hr
    rw [show (lerp 0 51 (1/4) : Nat) = 12 by norm_num [lerp, rustAsU8] <;> decide]
      at hr
    rw [show ((round (((0:Nat) : ℚ) * (1 - 1/4) + ((51:Nat) : ℚ) * (1/4))).toNat : Nat)
          = 13 by norm_num [round_eq] <;> decide] at hr
    exact absurd hr (by decide)
  · simp only [get_palette, DESATURATED_PALETTE, SATURATED_PALETTE, List.zip,
      List.zipWith, List.map, List.getD, List.getElem?_cons_succ,
      List.getElem?_cons_zero, Option.getD_some]
    norm_num [lerp, rustAsU8] <;> decide
  · simp only [get_palette_rounded, DESATURATED_PALETTE, SATURATED_PALETTE,
      List.zip, List.zipWith, List.map, List.getD, List.getElem?_cons_succ,
      List.getElem?_cons_zero, Option.getD_some]
    norm_num [round_eq] <;> decide

/-- C4 amended: for every saturation `s` and every index `i < 8`, entry `i`
of the palette builder output has each channel equal to the truncating
saturating u8 cast of `desaturated[i]·(1−s) + saturated[i]·s`, computed per
channel independently from the two anchor tables (truncation toward zero,
not round-to-nearest). -/
theorem get_palette_channel_formula (s : ℚ) (i : Nat) (h : i < 8) :
    (get_palette s)[i]? = some
      { r := rustAsU8 (((DESATURATED_PALETTE.getD i ⟨0,0,0,0⟩).r : ℚ) * (1 - s) +
              ((SATURATED_PALETTE.getD i ⟨0,0,0,0⟩).r : ℚ) * s)
        g := rustAsU8 (((DESATURATED_PALETTE.getD i ⟨0,0,0,0⟩).g : ℚ) * (1 - s) +
              ((SATURATED_PALETTE.getD i ⟨0,0,0,0⟩).g : ℚ) * s)
        b := rustAsU8 (((DESATURATED_PALETTE.getD i ⟨0,0,0,0⟩).b : ℚ) * (1 - s) +
              ((SATURATED_PALETTE.getD i ⟨0,0,0,0⟩).b : ℚ) * s)
        a := rustAsU8 (((DESATURATED_PALETTE.getD i ⟨0,0,0,0⟩).a : ℚ) * (1 - s) +
              ((SATURATED_PALETTE.getD i ⟨0,0,0,0⟩).a : ℚ) * s) } := by
  interval_cases i <;>
    simp [get_palette, lerp, DESATURATED_PALETTE, SATURATED_PALETTE]

/-- C4 witness: the channel formula at saturation 1/2, index 0. -/
theorem get_palette_channel_formula_witness :
    (0 : Nat) < 8 ∧
    (get_palette (1/2))[0]? = some
      { r := rustAsU8 (((DESATURATED_PALETTE.getD 0 ⟨0,0,0,0⟩).r : ℚ) * (1 - 1/2) +
              ((SATURATED_PALETTE.getD 0 ⟨0,0,0,0⟩).r : ℚ) * (1/2))
        g := rustAsU8 (((DESATURATED_PALETTE.getD 0 ⟨0,0,0,0⟩).g : ℚ) * (1 - 1/2) +
              ((SATURATED_PALETTE.getD 0 ⟨0,0,0,0⟩).g : ℚ) * (1/2))
        b := rustAsU8 (((DESATURATED_PALETTE.getD 0 ⟨0,0,0,0⟩).b : ℚ) * (1 - 1/2) +
              ((SATURATED_PALETTE.getD 0 ⟨0,0,0,0⟩).b : ℚ) * (1/2))
        a := rustAsU8 (((DESATURATED_PALETTE.getD 0 ⟨0,0,0,0⟩).a : ℚ) * (1 - 1/2) +
              ((SATURATED_PALETTE.getD 0 ⟨0,0,0,0⟩).a : ℚ) * (1/2)) } :=
  ⟨by decide, get_palette_channel_formula (1/2) 0 (by decide)⟩

/-- Embedding of `palette.iter().position(|y| x == y)` from the remapping
step of `quantize` in src/quantize/mod.rs: index of the first palette entry
exactly equal to `x`. -/
def rgbaPositionOf (palette : List RGBA) (x : RGBA) : Option Nat :=
  match palette with
  | [] => none
  | y :: rest => if x = y then some 0 else (rgbaPositionOf rest x).map (· + 1)

/-- Sequencing of a fallible map over a list; `none` models the panic of an
`unwrap` or of an out-of-bounds index inside the Rust iterator chain. -/
def optionMapList (f : α → Option β) : List α → Option (List β)
  | [] => some []
  | a :: as =>
    match f a, optionMapList f as with
    | some b, some bs => some (b :: bs)
    | _, _ => none

/-- Embedding of the remapping step of `quantize` in src/quantize/mod.rs.
The external engine returned `out_palette` (its possibly reordered palette)
and `outbuf` (one index into `out_palette` per pixel).  The code builds
`palette_remap[j] = position of out_palette[j] in palette` (panicking if a
color is not found) and replaces every pixel `x` by `palette_remap[x]`
(panicking if `x` is out of bounds); both panics are modelled as `none`. -/
def quantize_remap (palette out_palette : List RGBA) (outbuf : List Nat) :
    Option (List Nat) :=
  match optionMapList (rgbaPositionOf palette) out_palette with
  | none => none
  | some palette_remap => optionMapList (fun x => palette_remap[x]?) outbuf

theorem rgbaPositionOf_some (palette : List RGBA) (x : RGBA) (i : Nat)
    (h : rgbaPositionOf palette x = some i) :
    i < palette.length ∧ palette[i]? = some x := by
  induction palette generalizing i with
  | nil => simp [rgbaPositionOf] at h
  | cons y rest ih =>
    by_cases hxy : x = y
    · simp [rgbaPositionOf, hxy] at h
      subst h
      simp [hxy]
    · simp [rgbaPositionOf, hxy] at h
      obtain ⟨j, hj, rfl⟩ := h
      obtain ⟨h1, h2⟩ := ih j hj
      exact ⟨by simpa using Nat.succ_lt_succ h1, by simpa using h2⟩

theorem optionMapList_length (f : α → Option β) (l : List α) (r : List β)
    (h : optionMapList f l = some r) : r.length = l.length := by
  induction l generalizing r with
  | nil => simp [optionMapList] at h; simp [← h]
  | cons a as ih =>
    simp only [optionMapList] at h
    match hfa : f a, hrest : optionMapList f as with
    | some b, some bs =>
      rw [hfa, hrest] at h
      simp at h
      simp [← h, ih bs hrest]
    | some b, none => rw [hfa, hrest] at h; simp at h
    | none, _ => rw [hfa] at h; simp at h

theorem optionMapList_get (f : α → Option β) (l : List α) (r : List β)
    (h : optionMapList f l = some r) :
    ∀ (k : Nat) (b : β), r[k]? = some b → ∃ a, l[k]? = some a ∧ f a = some b := by
  induction l generalizing r with
  | nil => simp [optionMapList] at h; subst h; simp
  | cons a as ih =>
    simp only [optionMapList] at h
    match hfa : f a, hrest : optionMapList f as with
    | some b, some bs =>
      rw [hfa, hrest] at h
      simp at h
      intro k c hk
      match k with
      | 0 =>
        rw [← h] at hk
        simp at hk
        exact ⟨a, by simp, by rw [hfa, hk]⟩
      | k + 1 =>
        rw [← h] at hk
        simp at hk
        obtain ⟨a2, ha2, hfa2⟩ := ih bs hrest k c hk
        exact ⟨a2, by simpa using ha2, hfa2⟩
    | some b, none => rw [hfa, hrest] at h; simp at h
    | none, _ => rw [hfa] at h; simp at h

/-- C1: whenever the remapping step of the quantizer succeeds (which is the case
whenever `quantize` returns at all), the output has one entry per pixel,
every output entry is an index strictly below the length of the palette the
caller passed in, and the caller-palette color at that index is exactly the
color the external engine produced for that pixel — independent of how the
engine reordered its internal palette. -/
theorem quantize_remap_spec (palette out_palette : List RGBA)
    (outbuf result : List Nat)
    (h : quantize_remap palette out_palette outbuf = some result) :
    result.length = outbuf.length ∧
    ∀ (k i : Nat), result[k]? = some i →
      i < palette.length ∧
      ∃ j c, outbuf[k]? = some j ∧ out_palette[j]? = some c ∧
        palette[i]? = some c := by
  unfold quantize_remap at h
  match hremap : optionMapList (rgbaPositionOf palette) out_palette with
  | none => rw [hremap] at h; simp at h
  | some palette_remap =>
    rw [hremap] at h
    refine ⟨optionMapList_length _ _ _ h, ?_⟩
    intro k i hk
    obtain ⟨j, hj, hji⟩ := optionMapList_get _ _ _ h k i hk
    have hjlt : j < palette_remap.length := by
      by_contra hge
      rw [List.getElem?_eq_none (Nat.le_of_not_lt hge)] at hji
      exact Option.noConfusion hji
    obtain ⟨c, hc, hpos⟩ :=
      optionMapList_get _ _ _ hremap j i (by rw [hji])
    obtain ⟨hlt, hpal⟩ := rgbaPositionOf_some palette c i hpos
    exact ⟨hlt, j, c, hj, hc, hpal⟩

/-- C1 witness: the canonical 8-color desaturated palette, an engine
palette that reordered two of its colors, and a four-pixel output. -/
theorem quantize_remap_spec_witness :
    quantize_remap DESATURATED_PALETTE
      [⟨255, 255, 255, 255⟩, ⟨0, 0, 0, 255⟩] [0, 1, 1, 0] = some [1, 0, 0, 1] ∧
    ([1, 0, 0, 1] : List Nat).length = ([0, 1, 1, 0] : List Nat).length ∧
    ∀ (k i : Nat), ([1, 0, 0, 1] : List Nat)[k]? = some i →
      i < DESATURATED_PALETTE.length ∧
      ∃ j c, ([0, 1, 1, 0] : List Nat)[k]? = some j ∧
        ([⟨255, 255, 255, 255⟩, ⟨0, 0, 0, 255⟩] : List RGBA)[j]? = some c ∧
        DESATURATED_PALETTE[i]? = some c :=
  ⟨by decide,
   quantize_remap_spec DESATURATED_PALETTE
     [⟨255, 255, 255, 255⟩, ⟨0, 0, 0, 255⟩] [0, 1, 1, 0] [1, 0, 0, 1] (by decide)⟩

/-- Framebuffer-carrying driver state from src/epd/inky.rs.  The ndarray
`Array2<u8>` created by `Array2::zeros((height, width))` has the default
standard (row-major) layout, so it is modelled as its row-major flattening:
entry `(y, x)` lives at position `y * width + x`, and iteration order in
`show` is exactly this flattening. -/
structure InkyBuf where
  width : Nat
  height : Nat
  buf : List Nat
deriving DecidableEq, Repr

/-- Embedding of `set_pixel(x, y, v)` from src/epd/inky.rs:
`self.buf[[y, x]] = v`.  ndarray indexing checks `y` against the first
dimension (height) and `x` against the second (width) and panics when out
of range; the panic is modelled as `none`. -/
def set_pixel (s : InkyBuf) (x y v : Nat) : Option InkyBuf :=
  if y < s.height ∧ x < s.width then
    some { s with buf := s.buf.set (y * s.width + x) v }
  else none

/-- Nibble substitution performed by `show` on each pixel:
`(if *px == 7 { 1 } else { *px }) & 0xF`. -/
def substPx (v : Nat) : Nat := (if v = 7 then 1 else v) &&& 0xF

/-- Embedding of the packing loop of `show` in src/epd/inky.rs.  The loop
ORs pixel `2k` (shifted left 4) and pixel `2k+1` into the zero-initialized
byte `k` of `internal_buf`, whose length is `width*height/2`; with an odd
pixel count the final write indexes past `internal_buf` and panics
(modelled as `none`). -/
def packPixels : List Nat → Option (List Nat)
  | [] => some []
  | [_] => none
  | a :: b :: rest =>
    (packPixels rest).map (fun t => ((substPx a <<< 4) ||| substPx b) :: t)

/-- The packed buffer `show` transmits: the packing loop applied to the
row-major framebuffer. -/
def show_pack (s : InkyBuf) : Option (List Nat) := packPixels s.buf

/-- Nibble-wise unpacking of a packed transmission buffer (the inverse
reading used by the spec to state the round-trip property): each byte
yields its high nibble then its low nibble. -/
def unpackNibbles : List Nat → List Nat
  | [] => []
  | byte :: rest => byte / 16 :: byte % 16 :: unpackNibbles rest

theorem pack_byte_parts (a b : Nat) (ha : a < 8) (hb : b < 8) :
    ((substPx a <<< 4) ||| substPx b) / 16 = (if a = 7 then 1 else a) ∧
    ((substPx a <<< 4) ||| substPx b) % 16 = (if b = 7 then 1 else b) ∧
    substPx a = (if a = 7 then 1 else a) ∧
    substPx b = (if b = 7 then 1 else b) := by
  interval_cases a <;> interval_cases b <;> decide

/-- Induction principle consuming a list two elements at a time, matching
the shape of the packing recursion. -/
theorem listPairInduction {P : List Nat → Prop} (h0 : P []) (h1 : ∀ a, P [a])
    (h2 : ∀ a b l, P l → P (a :: b :: l)) : ∀ l, P l
  | [] => h0
  | [a] => h1 a
  | a :: b :: l => h2 a b l (listPairInduction h0 h1 h2 l)

theorem packPixels_spec (pixels : List Nat) :
    (∀ v ∈ pixels, v < 8) → pixels.length % 2 = 0 →
    ∃ packed, packPixels pixels = some packed ∧
      packed.length = pixels.length / 2 ∧
      (∀ (k a b : Nat), pixels[2 * k]? = some a → pixels[2 * k + 1]? = some b →
        ∃ m, packed[k]? = some m ∧ m / 16 = substPx a ∧ m % 16 = substPx b) ∧
      unpackNibbles packed = pixels.map (fun v => if v = 7 then 1 else v) := by
  induction pixels using listPairInduction with
  | h0 =>
    intro _ _
    exact ⟨[], rfl, rfl, by intro k a b hk; simp at hk, rfl⟩
  | h1 a =>
    intro _ heven
    simp at heven
  | h2 a b l ih =>
    intro hall heven
    have ha : a < 8 := hall a (by simp)
    have hb : b < 8 := hall b (by simp)
    have hall2 : ∀ v ∈ l, v < 8 := fun v hv => hall v (by simp [hv])
    have heven2 : l.length % 2 = 0 := by simp [List.length_cons] at heven; omega
    obtain ⟨packed, hp, hlen, hidx, hunp⟩ := ih hall2 heven2
    refine ⟨((substPx a <<< 4) ||| substPx b) :: packed, ?_, ?_, ?_, ?_⟩
    · simp [packPixels, hp]
    · simp [hlen, List.length_cons]; omega
    · intro k a2 b2 hk1 hk2
      match k with
      | 0 =>
        simp at hk1 hk2
        subst hk1; subst hk2
        obtain ⟨h1, h2, h3, h4⟩ := pack_byte_parts a b ha hb
        exact ⟨(substPx a <<< 4) ||| substPx b, by simp,
          by rw [h1, ← h3], by rw [h2, ← h4]⟩
      | k + 1 =>
        have e1 : 2 * (k + 1) = 2 * k + 1 + 1 := by ring
        have e2 : 2 * (k + 1) + 1 = 2 * k + 1 + 1 + 1 := by ring
        rw [e1] at hk1
        rw [e2] at hk2
        simp only [List.getElem?_cons_succ] at hk1 hk2
        obtain ⟨m, hm, hm1, hm2⟩ := hidx k a2 b2 hk1 hk2
        exact ⟨m, by simpa using hm, hm1, hm2⟩
    · obtain ⟨h1, h2, _, _⟩ := pack_byte_parts a b ha hb
      simp only [unpackNibbles, List.map_cons, hunp, h1, h2]

/-- C2: for every framebuffer whose entries are palette indices in `[0,7]`
and whose pixel count `width*height` is even, the packed transmission
buffer produced by `show` exists (no panic), has `width*height/2` bytes,
byte `k` carries `subst(pixel 2k)` in its high nibble and
`subst(pixel 2k+1)` in its low nibble in row-major scan order (where
`subst` maps 7 to 1 and otherwise masks to the low 4 bits), and nibble-wise
unpacking recovers every original index except 7, which round-trips to 1. -/
theorem show_pack_spec (s : InkyBuf)
    (hlen : s.buf.length = s.width * s.height)
    (hall : ∀ v ∈ s.buf, v < 8)
    (heven : (s.width * s.height) % 2 = 0) :
    ∃ packed, show_pack s = some packed ∧
      packed.length = s.width * s.height / 2 ∧
      (∀ (k a b : Nat), s.buf[2 * k]? = some a → s.buf[2 * k + 1]? = some b →
        ∃ m, packed[k]? = some m ∧ m / 16 = substPx a ∧ m % 16 = substPx b) ∧
      unpackNibbles packed = s.buf.map (fun v => if v = 7 then 1 else v) := by
  obtain ⟨packed, hp, hl, hi, hu⟩ :=
    packPixels_spec s.buf hall (by rw [hlen]; exact heven)
  exact ⟨packed, hp, by rw [hl, hlen], hi, hu⟩

/-- C2 witness: a 2×2 framebuffer holding indices 7, 7, 3, 5. -/
theorem show_pack_spec_witness :
    ∃ packed, show_pack ⟨2, 2, [7, 7, 3, 5]⟩ = some packed ∧
      packed.length = 2 * 2 / 2 ∧
      (∀ (k a b : Nat),
        (InkyBuf.mk 2 2 [7, 7, 3, 5]).buf[2 * k]? = some a →
        (InkyBuf.mk 2 2 [7, 7, 3, 5]).buf[2 * k + 1]? = some b →
        ∃ m, packed[k]? = some m ∧ m / 16 = substPx a ∧ m % 16 = substPx b) ∧
      unpackNibbles packed =
        (InkyBuf.mk 2 2 [7, 7, 3, 5]).buf.map (fun v => if v = 7 then 1 else v) :=
  show_pack_spec ⟨2, 2, [7, 7, 3, 5]⟩ (by decide) (by decide) (by decide)

/-- C10: writing pixel `(x, y)` with `x < width` and `y < height` stores the
value at row-major position `y*width + x` and leaves every other
framebuffer entry and every other field unchanged; with `x ≥ width` or
`y ≥ height` the write panics (ndarray bounds check), modelled as `none` —
it neither returns a state nor silently ignores the write. -/
theorem set_pixel_spec (s : InkyBuf) (x y v : Nat)
    (hlen : s.buf.length = s.width * s.height) :
    (x < s.width → y < s.height →
      ∃ t, set_pixel s x y v = some t ∧
        t.width = s.width ∧ t.height = s.height ∧
        t.buf.length = s.buf.length ∧
        t.buf[y * s.width + x]? = some v ∧
        ∀ j : Nat, j ≠ y * s.width + x → t.buf[j]? = s.buf[j]?) ∧
    (s.width ≤ x ∨ s.height ≤ y → set_pixel s x y v = none) := by
  constructor
  · intro hx hy
    have hidx : y * s.width + x < s.buf.length := by
      rw [hlen]
      calc y * s.width + x < y * s.width + s.width := by omega
        _ = (y + 1) * s.width := by ring
        _ ≤ s.height * s.width := Nat.mul_le_mul_right _ hy
        _ = s.width * s.height := Nat.mul_comm _ _
    refine ⟨{ s with buf := s.buf.set (y * s.width + x) v },
      by simp [set_pixel, hx, hy], rfl, rfl, by simp, ?_, ?_⟩
    · exact List.getElem?_set_self hidx
    · intro j hj
      exact List.getElem?_set_ne (fun h => hj h.symm)
  · intro hor
    unfold set_pixel
    rw [if_neg]
    omega

/-- C10 witness: a 2×2 framebuffer, one in-range write and one out-of-range
write. -/
theorem set_pixel_spec_witness :
    (∃ t, set_pixel ⟨2, 2, [9, 9, 9, 9]⟩ 1 0 3 = some t ∧
      t.width = 2 ∧ t.height = 2 ∧
      t.buf.length = ([9, 9, 9, 9] : List Nat).length ∧
      t.buf[0 * 2 + 1]? = some 3 ∧
      ∀ j : Nat, j ≠ 0 * 2 + 1 → t.buf[j]? = ([9, 9, 9, 9] : List Nat)[j]?) ∧
    set_pixel ⟨2, 2, [9, 9, 9, 9]⟩ 2 0 3 = none :=
  ⟨(set_pixel_spec ⟨2, 2, [9, 9, 9, 9]⟩ 1 0 3 (by decide)).1 (by decide) (by decide),
   (set_pixel_spec ⟨2, 2, [9, 9, 9, 9]⟩ 2 0 3 (by decide)).2 (Or.inl (by decide))⟩

/-- The `EPDColor` discriminants recognized by src/epd/mod.rs
(`Black = 0x01`, `Red = 0x02`, `Yellow = 0x03`, `SevenColour = 0x05`). -/
inductive EPDColor where
  | Black
  | Red
  | Yellow
  | SevenColour
deriving DecidableEq, Repr

/-- The byte-to-discriminant reading of `EPDColor` (`repr(u8)`); any byte
other than the four discriminants has no corresponding enum value, so a
`transmute` from such a byte produces a type-invalid value (undefined
behavior in Rust). -/
def EPDColor.ofByte (b : Nat) : Option EPDColor :=
  if b = 0x01 then some .Black
  else if b = 0x02 then some .Red
  else if b = 0x03 then some .Yellow
  else if b = 0x05 then some .SevenColour
  else none

/-- The `EPDType` record from src/epd/mod.rs (`repr(C)`): `width: u16` at
offsets 0-1, `height: u16` at offsets 2-3 (native little-endian order on
the target), `color` at 4, `pcb_variant` at 5, `display_variant` at 6,
`eeprom_write_time_length` at 7, `eeprom_write_time: [u8; 21]` at 8..29.
The `color` field holds the raw byte, since the `transmute` in the source
performs no validation. -/
structure EPDType where
  width : Nat
  height : Nat
  color : Nat
  pcb_variant : Nat
  display_variant : Nat
  eeprom_write_time_length : Nat
  eeprom_write_time : List Nat
deriving DecidableEq, Repr

/-- Embedding of the decoding step of `read_eeprom` in src/epd/mod.rs: the
29 bytes block-read from the identity chip are placed in a 30-byte zeroed
buffer (the 30th byte is `repr(C)` struct padding, never read back) and
reinterpreted as `EPDType` by `unsafe { transmute(buffer) }` — field by
field at fixed offsets, unconditionally, with no validation of any field. -/
def read_eeprom_decode (record : List Nat) : Option EPDType :=
  if record.length = 29 then
    some { width := record.getD 0 0 + 256 * record.getD 1 0
           height := record.getD 2 0 + 256 * record.getD 3 0
           color := record.getD 4 0
           pcb_variant := record.getD 5 0
           display_variant := record.getD 6 0
           eeprom_write_time_length := record.getD 7 0
           eeprom_write_time := (record.drop 8).take 21 }
  else none

/-- C3: evaluation at the failing input.  A 29-byte identity-chip record
whose color byte (offset 4) is 0x00 — none of the four recognized values —
is decoded by `read_eeprom` into a descriptor all the same: the `transmute`
performs no validation and there is no `UnknownColorMode` error path in the
code (the resulting enum field holds a type-invalid discriminant, which is
undefined behavior in Rust). -/
theorem read_eeprom_accepts_unknown_color :
    read_eeprom_decode ([0x20, 0x03, 0xE0, 0x01, 0x00] ++ List.replicate 24 0) =
      some ⟨800, 480, 0, 0, 0, 0, List.replicate 21 0⟩ ∧
    EPDColor.ofByte 0 = none := by
  decide

/-- C8: a 29-byte identity-chip record encoding width 800 (bytes 0x20,
0x03), height 480 (bytes 0xE0, 0x01) and color byte 0x02 decodes to a
descriptor with width 800, height 480, and the Red color mode. -/
theorem read_eeprom_decode_red_800x480 :
    read_eeprom_decode ([0x20, 0x03, 0xE0, 0x01, 0x02] ++ List.replicate 24 0) =
      some ⟨800, 480, 2, 0, 0, 0, List.replicate 21 0⟩ ∧
    EPDColor.ofByte 0x02 = some EPDColor.Red := by
  decide

/-- Result of a terminating `busy_wait` run: whether the one-shot
full-timeout sleep was taken, and the index of the pin read on which the
spin loop exited. -/
structure BusyWaitResult where
  slept : Bool
  idleIndex : Nat
deriving DecidableEq, Repr

/-- First index `≥ start` at which the pin trace reads high, searching at
most `fuel` reads; `none` models the spin loop never observing a high
level (the loop runs forever). -/
def firstHighFrom (pin : Nat → Bool) : Nat → Nat → Option Nat
  | _, 0 => none
  | start, fuel + 1 =>
    if pin start then some start else firstHighFrom pin (start + 1) fuel

/-- Embedding of `busy_wait` from src/epd/inky.rs over a trace of
successive busy-pin reads (`true` = line reads high = the pulled-up
idle/no-signal level for this panel, `false` = line reads low = the
panel-driven asserted-busy level).  Read 0 is the `is_high` check guarding
the single `thread::sleep(timeout)`; reads 1, 2, … are the
`while is_low {}` spin loop, which exits on the first high read.  The
function has no error outcome: `none` only models the loop spinning
forever. -/
def busy_wait (pin : Nat → Bool) (fuel : Nat) : Option BusyWaitResult :=
  match firstHighFrom pin 1 fuel with
  | some n => some ⟨pin 0, n⟩
  | none => none

/-- C6 counterexample: a trace on which the busy line reads asserted-busy
(low) at the moment of the initial check and goes idle from read 1 onward.
The claim says the driver sleeps for the full timeout in this situation,
but `busy_wait` sleeps only when the line reads high: here it returns with
`slept = false`. -/
theorem busy_wait_counterexample :
    (fun n => decide (1 ≤ n)) 0 = false ∧
    busy_wait (fun n => decide (1 ≤ n)) 5 = some ⟨false, 1⟩ := by
  decide

theorem firstHighFrom_spec (pin : Nat → Bool) (fuel : Nat) :
    ∀ (start n : Nat), firstHighFrom pin start fuel = some n →
      start ≤ n ∧ pin n = true ∧ ∀ m, start ≤ m → m < n → pin m = false := by
  induction fuel with
  | zero => intro start n h; simp [firstHighFrom] at h
  | succ fuel ih =>
    intro start n h
    unfold firstHighFrom at h
    by_cases hp : pin start
    · rw [if_pos hp] at h
      cases h
      exact ⟨Nat.le_refl _, hp, fun m h1 h2 => absurd h1 (by omega)⟩
    · rw [if_neg hp] at h
      obtain ⟨h1, h2, h3⟩ := ih (start + 1) n h
      refine ⟨by omega, h2, ?_⟩
      intro m hm1 hm2
      rcases Nat.eq_or_lt_of_le hm1 with heq | hlt
      · rw [← heq]; exact Bool.not_eq_true _ ▸ (by simpa using hp)
      · exact h3 m hlt hm2

theorem firstHighFrom_none (pin : Nat → Bool) (fuel : Nat)
    (h : ∀ m, 1 ≤ m → pin m = false) :
    ∀ start, 1 ≤ start → firstHighFrom pin start fuel = none := by
  induction fuel with
  | zero => intro start _; rfl
  | succ fuel ih =>
    intro start hstart
    have hlow := h start hstart
    simp [firstHighFrom, hlow]
    exact ih start.succ (by omega)

/-- C6 amended: for every busy-pin read trace, (a) whenever `busy_wait`
returns, the full-timeout sleep was taken exactly when the line read HIGH
(the pulled-up idle/no-signal level) at the moment of checking — not when
it read asserted-busy — and the spin loop exited at the first read from
index 1 onward where the line read high, every strictly earlier spin read
having been low (asserted-busy); the return is always success, as the
function has no timeout-error outcome at all; and (b) a panel holding the
line low (asserted-busy) forever makes the loop spin forever — `busy_wait`
returns nothing for any number of reads. -/
theorem busy_wait_behavior (pin : Nat → Bool) (fuel : Nat) :
    (∀ res, busy_wait pin fuel = some res →
      res.slept = pin 0 ∧
      1 ≤ res.idleIndex ∧ pin res.idleIndex = true ∧
      ∀ m, 1 ≤ m → m < res.idleIndex → pin m = false) ∧
    ((∀ n, 1 ≤ n → pin n = false) → busy_wait pin fuel = none) := by
  constructor
  · intro res hres
    unfold busy_wait at hres
    match hfh : firstHighFrom pin 1 fuel with
    | some n =>
      rw [hfh] at hres
      cases hres
      obtain ⟨h1, h2, h3⟩ := firstHighFrom_spec pin fuel 1 n hfh
      exact ⟨rfl, h1, h2, h3⟩
    | none => rw [hfh] at hres; exact Option.noConfusion hres
  · intro hlow
    unfold busy_wait
    rw [firstHighFrom_none pin fuel hlow 1 (Nat.le_refl 1)]

/-- C6 witness: a trace that is high everywhere (sleep taken, loop exits at
read 1) and a trace that is low from read 1 onward (loop never exits). -/
theorem busy_wait_behavior_witness :
    ((⟨true, 1⟩ : BusyWaitResult).slept = (fun _ : Nat => true) 0 ∧
      1 ≤ (⟨true, 1⟩ : BusyWaitResult).idleIndex ∧
      (fun _ : Nat => true) (⟨true, 1⟩ : BusyWaitResult).idleIndex = true ∧
      ∀ m, 1 ≤ m → m < (⟨true, 1⟩ : BusyWaitResult).idleIndex →
        (fun _ : Nat => true) m = false) ∧
    busy_wait (fun _ : Nat => false) 4 = none :=
  ⟨(busy_wait_behavior (fun _ : Nat => true) 3).1 ⟨true, 1⟩ (by decide),
   (busy_wait_behavior (fun _ : Nat => false) 4).2 (fun n _ => rfl)⟩

/-- One observable bus operation of the driver in src/epd/inky.rs:
driving the reset line, a settle sleep, one `spi_write` transfer with the
data/command line state (`false` = command, `true` = data), or one
`busy_wait` with its timeout budget in milliseconds. -/
inductive BusOp where
  | resetLevel (high : Bool)
  | sleepMs (ms : Nat)
  | spiData (dc : Bool) (bytes : List Nat)
  | busyWaitMs (ms : Nat)
deriving DecidableEq, Repr

/-- Embedding of `send_command(command, data)`: one command-mode
`spi_write` of the single command byte, then one data-mode `spi_write` of
the parameter bytes (`send_data`). -/
def send_command_ops (c : Nat) (data : List Nat) : List BusOp :=
  [BusOp.spiData false [c], BusOp.spiData true data]

/-- Embedding of `setup` from src/epd/inky.rs: the reset pulse train with
100 ms settles, the 10 s busy-wait, then the fixed init command sequence
in source order with its literal command and parameter bytes. -/
def setup_ops : List BusOp :=
  [BusOp.resetLevel false, BusOp.sleepMs 100,
   BusOp.resetLevel true, BusOp.sleepMs 100,
   BusOp.resetLevel false, BusOp.sleepMs 100,
   BusOp.resetLevel true,
   BusOp.busyWaitMs 10000] ++
  send_command_ops 0xAA [0x49, 0x55, 0x20, 0x08, 0x09, 0x18] ++
  send_command_ops 0x01 [0x3F, 0x00, 0x32, 0x2A, 0x0E, 0x2A] ++
  send_command_ops 0x00 [0x5F, 0x69] ++
  send_command_ops 0x03 [0x00, 0x54, 0x00, 0x44] ++
  send_command_ops 0x05 [0x40, 0x1F, 0x1F, 0x2C] ++
  send_command_ops 0x06 [0x6F, 0x1F, 0x16, 0x25] ++
  send_command_ops 0x08 [0x6F, 0x1F, 0x1F, 0x22] ++
  send_command_ops 0x13 [0x00, 0x04] ++
  send_command_ops 0x30 [0x02] ++
  send_command_ops 0x41 [0x00] ++
  send_command_ops 0x50 [0x3F] ++
  send_command_ops 0x60 [0x02, 0x00] ++
  send_command_ops 0x61 [0x03, 0x20, 0x01, 0xE0] ++
  send_command_ops 0x82 [0x1E] ++
  send_command_ops 0x84 [0x00] ++
  send_command_ops 0x86 [0x00] ++
  send_command_ops 0xE3 [0x2F] ++
  send_command_ops 0xE0 [0x00] ++
  send_command_ops 0xE6 [0x00]

/-- Embedding of `update(buf)` from src/epd/inky.rs: `setup()`, the
frame-transfer command 0x10 (`DTM`) with the whole packed frame as its
data, power-on 0x04 (`PON`) with a 400 ms busy-wait, refresh 0x12 (`DRF`)
with a 45 s busy-wait, power-off 0x02 (`POF`) with a 400 ms busy-wait. -/
def update_ops (frame : List Nat) : List BusOp :=
  setup_ops ++
  send_command_ops 0x10 frame ++
  send_command_ops 0x04 [] ++ [BusOp.busyWaitMs 400] ++
  send_command_ops 0x12 [0x00] ++ [BusOp.busyWaitMs 45000] ++
  send_command_ops 0x02 [0x00] ++ [BusOp.busyWaitMs 400]

/-- C7: every frame transfer emits exactly this flat sequence of bus
operations, in this order and no other — the full reset-pulse-plus-init
(Configured) sequence first, then command byte 0x10 followed by the entire
packed frame as one data transfer, then power-on with a 400 ms busy-wait
budget, refresh with a 45 s budget, and power-off with a 400 ms budget. -/
theorem update_ops_sequence (frame : List Nat) :
    update_ops frame =
      [BusOp.resetLevel false, BusOp.sleepMs 100,
       BusOp.resetLevel true, BusOp.sleepMs 100,
       BusOp.resetLevel false, BusOp.sleepMs 100,
       BusOp.resetLevel true,
       BusOp.busyWaitMs 10000,
       BusOp.spiData false [0xAA], BusOp.spiData true [0x49, 0x55, 0x20, 0x08, 0x09, 0x18],
       BusOp.spiData false [0x01], BusOp.spiData true [0x3F, 0x00, 0x32, 0x2A, 0x0E, 0x2A],
       BusOp.spiData false [0x00], BusOp.spiData true [0x5F, 0x69],
       BusOp.spiData false [0x03], BusOp.spiData true [0x00, 0x54, 0x00, 0x44],
       BusOp.spiData false [0x05], BusOp.spiData true [0x40, 0x1F, 0x1F, 0x2C],
       BusOp.spiData false [0x06], BusOp.spiData true [0x6F, 0x1F, 0x16, 0x25],
       BusOp.spiData false [0x08], BusOp.spiData true [0x6F, 0x1F, 0x1F, 0x22],
       BusOp.spiData false [0x13], BusOp.spiData true [0x00, 0x04],
       BusOp.spiData false [0x30], BusOp.spiData true [0x02],
       BusOp.spiData false [0x41], BusOp.spiData true [0x00],
       BusOp.spiData false [0x50], BusOp.spiData true [0x3F],
       BusOp.spiData false [0x60], BusOp.spiData true [0x02, 0x00],
       BusOp.spiData false [0x61], BusOp.spiData true [0x03, 0x20, 0x01, 0xE0],
       BusOp.spiData false [0x82], BusOp.spiData true [0x1E],
       BusOp.spiData false [0x84], BusOp.spiData true [0x00],
       BusOp.spiData false [0x86], BusOp.spiData true [0x00],
       BusOp.spiData false [0xE3], BusOp.spiData true [0x2F],
       BusOp.spiData false [0xE0], BusOp.spiData true [0x00],
       BusOp.spiData false [0xE6], BusOp.spiData true [0x00],
       BusOp.spiData false [0x10], BusOp.spiData true frame,
       BusOp.spiData false [0x04], BusOp.spiData true [],
       BusOp.busyWaitMs 400,
       BusOp.spiData false [0x12], BusOp.spiData true [0x00],
       BusOp.busyWaitMs 45000,
       BusOp.spiData false [0x02], BusOp.spiData true [0x00],
       BusOp.busyWaitMs 400] := by
  rfl

/-- Embedding of the chunking loop of `spi_write` from src/epd/inky.rs.
The loop writes `&values[written..min(written + 64, values.len())]` and
adds the return value of the transport (the number of bytes it accepted) to
`written` until `written == values.len()`.  The transport is modelled by
`accepts call requested`, the count accepted by the `call`-th write of a
`requested`-byte slice; at every call site `requested` equals the length
of the slice passed (`min (written + 64) values.length - written`, with
`written < values.length`).  The bytes actually transmitted by one call
are the accepted prefix of the slice.  `fuel` bounds the number of loop
iterations; `none` models the loop not finishing within `fuel` calls. -/
def spi_write_chunks (accepts : Nat → Nat → Nat) (values : List Nat) :
    Nat → Nat → Nat → Option (List (List Nat))
  | _, written, 0 => if written = values.length then some [] else none
  | call, written, fuel + 1 =>
    if written = values.length then some []
    else
      let requested := min (written + 64) values.length - written
      let slice := (values.drop written).take requested
      let n := accepts call requested
      match spi_write_chunks accepts values (call + 1) (written + n) fuel with
      | some rest => some (slice.take n :: rest)
      | none => none

/-- The chunk sequence transmitted by one `spi_write(dc, values)` call,
with fuel `values.length` (enough for any transport accepting at least one
byte per call). -/
def spi_write_run (accepts : Nat → Nat → Nat) (values : List Nat) :
    Option (List (List Nat)) :=
  spi_write_chunks accepts values 0 0 values.length

theorem spi_write_chunks_spec (accepts : Nat → Nat → Nat) (values : List Nat)
    (hacc : ∀ i r, 0 < r → 0 < accepts i r ∧ accepts i r ≤ r) :
    ∀ (fuel call written : Nat), written ≤ values.length →
      values.length - written ≤ fuel →
      ∃ chunks, spi_write_chunks accepts values call written fuel = some chunks ∧
        chunks.flatten = values.drop written ∧
        ∀ c ∈ chunks, 0 < c.length ∧ c.length ≤ 64 := by
  intro fuel
  induction fuel with
  | zero =>
    intro call written h1 h2
    have hw : written = values.length := by omega
    refine ⟨[], by simp [spi_write_chunks, hw], ?_, by simp⟩
    simp [hw, List.drop_length]
  | succ fuel ih =>
    intro call written h1 h2
    by_cases hw : written = values.length
    · refine ⟨[], by simp [spi_write_chunks, hw], ?_, by simp⟩
      simp [hw, List.drop_length]
    · have hlt : written < values.length := by omega
      have hreqpos : 0 < min (written + 64) values.length - written := by omega
      obtain ⟨hnpos, hnle⟩ := hacc call _ hreqpos
      have hwn : written + accepts call (min (written + 64) values.length - written)
          ≤ values.length := by omega
      have hfuel : values.length -
          (written + accepts call (min (written + 64) values.length - written))
          ≤ fuel := by omega
      obtain ⟨rest, hrest, hjoin, hc⟩ := ih (call + 1) _ hwn hfuel
      refine ⟨((values.drop written).take (min (written + 64) values.length - written)).take
          (accepts call (min (written + 64) values.length - written)) :: rest, ?_, ?_, ?_⟩
      · simp only [spi_write_chunks, if_neg hw]
        rw [hrest]
      · simp only [List.flatten_cons]
        rw [hjoin, List.take_take, Nat.min_eq_left hnle]
        have hdd : values.drop (written +
            accepts call (min (written + 64) values.length - written)) =
            (values.drop written).drop
              (accepts call (min (written + 64) values.length - written)) := by
          rw [List.drop_drop]
        rw [hdd, List.take_append_drop]
      · intro c hc2
        rcases List.mem_cons.mp hc2 with heq | hmem
        · subst heq
          have hlen : (((values.drop written).take
              (min (written + 64) values.length - written)).take
              (accepts call (min (written + 64) values.length - written))).length =
              accepts call (min (written + 64) values.length - written) := by
            simp [List.length_take, List.length_drop]
            omega
          rw [hlen]
          omega
        · exact hc c hmem

/-- C9: under the precondition that every transport write accepts at least
one byte and at most the number requested, `spi_write` terminates (within
`values.length` loop iterations), the concatenation of the transmitted
chunks is exactly the payload in order, every chunk is nonempty and at
most 64 bytes, and the accumulated total of bytes written equals the
payload length on return. -/
theorem spi_write_run_spec (accepts : Nat → Nat → Nat) (values : List Nat)
    (hacc : ∀ i r, 0 < r → 0 < accepts i r ∧ accepts i r ≤ r) :
    ∃ chunks, spi_write_run accepts values = some chunks ∧
      chunks.flatten = values ∧
      (∀ c ∈ chunks, 0 < c.length ∧ c.length ≤ 64) ∧
      (chunks.map List.length).sum = values.length := by
  obtain ⟨chunks, h1, h2, h3⟩ :=
    spi_write_chunks_spec accepts values hacc values.length 0 0
      (Nat.zero_le _) (by omega)
  rw [List.drop_zero] at h2
  refine ⟨chunks, h1, h2, h3, ?_⟩
  have := congrArg List.length h2
  simpa [List.length_flatten] using this

/-- C9 witness: a 70-byte payload and a transport accepting every byte
requested — two chunks of 64 and 6 bytes. -/
theorem spi_write_run_spec_witness :
    ∃ chunks, spi_write_run (fun _ r => r) (List.replicate 70 1) = some chunks ∧
      chunks.flatten = List.replicate 70 1 ∧
      (∀ c ∈ chunks, 0 < c.length ∧ c.length ≤ 64) ∧
      (chunks.map List.length).sum = (List.replicate 70 1).length :=
  spi_write_run_spec (fun _ r => r) (List.replicate 70 1)
    (fun _ r hr => ⟨hr, Nat.le_refl r⟩)
